import Mathlib

/-!
Shallow embedding of the filter operator of `rust/worker/src/execution/operators/filter.rs`
(predicate-evaluation core of the query path), together with models of the data types it
consumes from the `chroma_types` crate (which is not part of the provided sources and is
therefore modelled from the specification where noted).

Conventions of the embedding:
* `RoaringBitmap` is modelled as `Finset ℕ` (offset ids are dense `u32` surrogates; the
  32-bit bound plays no role in any claim).
* Rust `Result` values are modelled by `Except`; the `unreachable!` panics in the two
  provider lookups are modelled by a dedicated `EvalResult.panic` outcome so that their
  (un)reachability can be stated.
* Async suspension is irrelevant to the values computed and is erased.
* Rust `HashMap`s are modelled by `Finmap` (extensional finite maps with overwriting
  insertion); the `HashMap<&str, BTreeMap<&MetadataValue, RoaringBitmap>>` of the log
  reader is modelled as its set of (key, value, offset-id) triples, which is in bijection
  with the reachable states of the nested map (every inner bucket is created non-empty).
-/

namespace Chroma

/-- Offset-id sets; `roaring::RoaringBitmap` modelled as a finite set of naturals. -/
abbrev RoaringBitmap := Finset ℕ

/-- Modelled from the spec (§7): fetch-time failure to obtain a reader from the
segment/log input bundle (`FetchSegmentError`, not in the provided sources). -/
inductive FetchSegmentError where
  | uninitializedReader
deriving DecidableEq

/-- Modelled from the spec (§6, §7): failure of the on-disk full-text reader. -/
inductive FullTextError where
  | searchFailure
deriving DecidableEq

/-- Modelled from the spec (§7): an on-disk index-read failure, with the full-text
cause distinguished (`chroma_index::metadata::types::MetadataIndexError`). -/
inductive MetadataIndexError where
  | fullTextError (e : FullTextError)
  | readError
deriving DecidableEq

/-- Modelled from the spec (§6, §7): failure of the external log materializer. -/
inductive LogMaterializerError where
  | materializationFailure
deriving DecidableEq

/-- The error enum of `filter.rs` (`FilterError`): fetch, index and materialization
failures. -/
inductive FilterError where
  | fetchSegment (e : FetchSegmentError)
  | index (e : MetadataIndexError)
  | logMaterializer (e : LogMaterializerError)
deriving DecidableEq

/-- Result of a fallible computation in the filter path. `ok`/`err` model Rust's
`Result`; `panic` models an executed `unreachable!`. -/
inductive EvalResult (α : Type) where
  | ok (a : α)
  | err (e : FilterError)
  | panic

instance {α : Type} [DecidableEq α] : DecidableEq (EvalResult α) := fun a b =>
  match a, b with
  | .ok x, .ok y =>
    if h : x = y then .isTrue (congrArg _ h)
    else .isFalse fun hc => h (EvalResult.ok.inj hc)
  | .err x, .err y =>
    if h : x = y then .isTrue (congrArg _ h)
    else .isFalse fun hc => h (EvalResult.err.inj hc)
  | .panic, .panic => .isTrue rfl
  | .ok _, .err _ => .isFalse fun hc => EvalResult.noConfusion hc
  | .ok _, .panic => .isFalse fun hc => EvalResult.noConfusion hc
  | .err _, .ok _ => .isFalse fun hc => EvalResult.noConfusion hc
  | .err _, .panic => .isFalse fun hc => EvalResult.noConfusion hc
  | .panic, .ok _ => .isFalse fun hc => EvalResult.noConfusion hc
  | .panic, .err _ => .isFalse fun hc => EvalResult.noConfusion hc

/-- Sequencing of fallible computations (`?`-propagation); panics propagate. -/
def EvalResult.bind {α β : Type} : EvalResult α → (α → EvalResult β) → EvalResult β
  | .ok a, f => f a
  | .err e, _ => .err e
  | .panic, _ => .panic

/-- Mapping over a successful result. -/
def EvalResult.map {α β : Type} (f : α → β) : EvalResult α → EvalResult β
  | .ok a => .ok (f a)
  | .err e => .err e
  | .panic => .panic

/-- Lift an on-disk index lookup result (`?` with `From<MetadataIndexError>`). -/
def liftIndex {α : Type} : Except MetadataIndexError α → EvalResult α
  | .ok a => .ok a
  | .error e => .err (.index e)

/-- Modelled from the spec (§3): `chroma_types::MetadataValue`, a tagged union over
boolean, integer (`i64`), float and string. Floats are modelled as rationals: every
claim settled here uses only the order structure of the float variant, never rounding. -/
inductive MetadataValue where
  | Bool (b : Bool)
  | Int (i : Int)
  | Float (f : ℚ)
  | Str (s : String)
deriving DecidableEq

/-- Discriminant of the `MetadataValue` variants, in declaration order. -/
def MetadataValue.tag : MetadataValue → ℕ
  | .Bool _ => 0
  | .Int _ => 1
  | .Float _ => 2
  | .Str _ => 3

/-- Modelled from the spec (§3): the strict order on `MetadataValue` used by the log
reader's value buckets — the natural order within a variant (this is all the spec
fixes), extended to a total order by the variant declaration order as a derived
`Ord` produces. -/
def mvalLt (a b : MetadataValue) : Bool :=
  match a, b with
  | .Bool x, .Bool y => !x && y
  | .Int x, .Int y => decide (x < y)
  | .Float x, .Float y => decide (x < y)
  | .Str x, .Str y => decide (x < y)
  | _, _ => decide (a.tag < b.tag)

/-- Non-strict companion of `mvalLt`. -/
def mvalLe (a b : MetadataValue) : Bool :=
  mvalLt a b || decide (a = b)

/-- The type `chroma_types::SignedRoaringBitmap`. Modelled from the spec (§3, §4.1): a set of
ids given either positively (`Include`) or as a complement (`Exclude`) against the
implicit universe of all ids; the type lives in `chroma_types`, outside the provided
sources. -/
inductive SignedRoaringBitmap where
  | Include (s : RoaringBitmap)
  | Exclude (s : RoaringBitmap)

instance : DecidableEq SignedRoaringBitmap := fun a b =>
  match a, b with
  | .Include x, .Include y =>
    if h : x = y then .isTrue (congrArg _ h)
    else .isFalse fun hc => h (SignedRoaringBitmap.Include.inj hc)
  | .Exclude x, .Exclude y =>
    if h : x = y then .isTrue (congrArg _ h)
    else .isFalse fun hc => h (SignedRoaringBitmap.Exclude.inj hc)
  | .Include _, .Exclude _ => .isFalse fun hc => SignedRoaringBitmap.noConfusion hc
  | .Exclude _, .Include _ => .isFalse fun hc => SignedRoaringBitmap.noConfusion hc

namespace SignedRoaringBitmap

/-- Modelled from the spec (§4.1): `empty() = Include(∅)`. -/
def empty : SignedRoaringBitmap := .Include ∅

/-- Modelled from the spec (§4.1): `full() = Exclude(∅)`. -/
def full : SignedRoaringBitmap := .Exclude ∅

/-- Modelled from the spec (§4.1): the `BitAnd` (intersection) table of the signed
bitmap algebra. -/
def band : SignedRoaringBitmap → SignedRoaringBitmap → SignedRoaringBitmap
  | .Include a, .Include b => .Include (a ∩ b)
  | .Include a, .Exclude b => .Include (a \ b)
  | .Exclude a, .Include b => .Include (b \ a)
  | .Exclude a, .Exclude b => .Exclude (a ∪ b)

/-- Modelled from the spec (§4.1): the `BitOr` (union) table of the signed bitmap
algebra. -/
def bor : SignedRoaringBitmap → SignedRoaringBitmap → SignedRoaringBitmap
  | .Include a, .Include b => .Include (a ∪ b)
  | .Include a, .Exclude b => .Exclude (b \ a)
  | .Exclude a, .Include b => .Exclude (a \ b)
  | .Exclude a, .Exclude b => .Exclude (a ∩ b)

/-- Membership in the set a signed bitmap denotes. -/
def mem (b : SignedRoaringBitmap) (i : ℕ) : Bool :=
  match b with
  | .Include s => decide (i ∈ s)
  | .Exclude s => decide (i ∉ s)

end SignedRoaringBitmap

/-- Modelled from the spec (§4.4): `chroma_types::PrimitiveOperator`, the comparison
operators of a direct metadata comparison. -/
inductive PrimitiveOperator where
  | Equal
  | NotEqual
  | GreaterThan
  | GreaterThanOrEqual
  | LessThan
  | LessThanOrEqual
deriving DecidableEq

/-- Modelled from the spec (§4.4): `chroma_types::SetOperator` for set membership. -/
inductive SetOperator where
  | In
  | NotIn
deriving DecidableEq

/-- Modelled from the spec (§3): `chroma_types::BooleanOperator` of a composition node. -/
inductive BooleanOperator where
  | And
  | Or
deriving DecidableEq

/-- Modelled from the spec (§4.4): `chroma_types::DocumentOperator`. -/
inductive DocumentOperator where
  | Contains
  | NotContains
deriving DecidableEq

/-- Modelled from the spec (§3): `chroma_types::MetadataSetValue`, the homogeneous
value list of a set-membership comparison. -/
inductive MetadataSetValue where
  | Bool (l : List Bool)
  | Int (l : List Int)
  | Float (l : List ℚ)
  | Str (l : List String)
deriving DecidableEq

/-- Modelled from the spec (§3): `chroma_types::WhereComparison` — a primitive
comparison against one value, or a set comparison against a value list. -/
inductive WhereComparison where
  | Primitive (op : PrimitiveOperator) (val : MetadataValue)
  | Set (op : SetOperator) (vals : MetadataSetValue)
deriving DecidableEq

/-- Modelled from the spec (§3): `chroma_types::DirectWhereComparison`. -/
structure DirectWhereComparison where
  key : String
  comparison : WhereComparison
deriving DecidableEq

/-- Modelled from the spec (§3): `chroma_types::DirectDocumentComparison`. -/
structure DirectDocumentComparison where
  document : String
  operator : DocumentOperator
deriving DecidableEq

/-- Modelled from the spec (§3): `chroma_types::Where`, the where-clause AST. The
source's `WhereChildren` struct (a `BooleanOperator` and an ordered child list) is
inlined into the `WhereChildren` constructor. -/
inductive Where where
  | DirectWhereComparison (c : DirectWhereComparison)
  | DirectWhereDocumentComparison (c : DirectDocumentComparison)
  | WhereChildren (operator : BooleanOperator) (children : List Where)

/-- Modelled from the spec (§3): the final operation tag of a materialized log record
(`chroma_types::MaterializedLogOperation`); the spec lists Initial, AddNew,
UpdateExisting and DeleteExisting. -/
inductive MaterializedLogOperation where
  | Initial
  | AddNew
  | UpdateExisting
  | DeleteExisting
deriving DecidableEq

/-- Modelled from the spec (§3, §6): one materialized log record, carrying its final
operation tag and the merged user id / metadata / document that the source reads
through `merged_user_id_ref` / `merged_metadata_ref` / `merged_document_ref`. The
merged metadata (a `HashMap<String, MetadataValue>`) is carried as its entry list. -/
structure MaterializedLogRecord where
  offset_id : ℕ
  final_operation : MaterializedLogOperation
  merged_user_id : String
  merged_metadata : List (String × MetadataValue)
  merged_document : Option String
deriving DecidableEq

/-- The log-overlay reader of `filter.rs` (`MetadataLogReader`). `compact_metadata`
(`HashMap<&str, BTreeMap<&MetadataValue, RoaringBitmap>>`) is modelled as the set
of its (key, value, offset-id) triples; `document` and `user_id_to_offset_id` as
extensional finite maps; `updated_offset_ids` as a set. -/
@[ext]
structure MetadataLogReader where
  compact_metadata : Finset (String × MetadataValue × ℕ)
  document : Finmap fun _ : ℕ => String
  updated_offset_ids : RoaringBitmap
  user_id_to_offset_id : Finmap fun _ : String => ℕ

instance : DecidableEq MetadataLogReader := fun a b =>
  if h1 : a.compact_metadata = b.compact_metadata then
    if h2 : a.document = b.document then
      if h3 : a.updated_offset_ids = b.updated_offset_ids then
        if h4 : a.user_id_to_offset_id = b.user_id_to_offset_id then
          .isTrue (by cases a; cases b; cases h1; cases h2; cases h3; cases h4; rfl)
        else .isFalse fun hc => h4 (congrArg MetadataLogReader.user_id_to_offset_id hc)
      else .isFalse fun hc => h3 (congrArg MetadataLogReader.updated_offset_ids hc)
    else .isFalse fun hc => h2 (congrArg MetadataLogReader.document hc)
  else .isFalse fun hc => h1 (congrArg MetadataLogReader.compact_metadata hc)

/-- Insertion of one record's merged metadata into the (key, value, offset) triple
set: the source's inner loop over `merged_metadata_ref`. -/
def insertMetadata (acc : Finset (String × MetadataValue × ℕ)) (oid : ℕ)
    (kvs : List (String × MetadataValue)) : Finset (String × MetadataValue × ℕ) :=
  kvs.foldl (fun s kv => insert (kv.1, kv.2, oid) s) acc

/-- The per-record step of `MetadataLogReader::new`: touched-set insertion for
records whose final operation is neither `Initial` nor `AddNew`, then forward-index
insertion (user id, metadata buckets, document) for records that are not
`DeleteExisting`. -/
def MetadataLogReader.step (r : MetadataLogReader) (log : MaterializedLogRecord) :
    MetadataLogReader :=
  let r1 : MetadataLogReader :=
    if log.final_operation = .Initial ∨ log.final_operation = .AddNew then r
    else { r with updated_offset_ids := insert log.offset_id r.updated_offset_ids }
  if log.final_operation = .DeleteExisting then r1
  else
    { r1 with
      user_id_to_offset_id := r1.user_id_to_offset_id.insert log.merged_user_id log.offset_id
      compact_metadata := insertMetadata r1.compact_metadata log.offset_id log.merged_metadata
      document :=
        match log.merged_document with
        | some doc => r1.document.insert log.offset_id doc
        | none => r1.document }

/-- Constructor `MetadataLogReader::new`: one pass over the materialized log chunk. -/
def MetadataLogReader.new (logs : List MaterializedLogRecord) : MetadataLogReader :=
  logs.foldl MetadataLogReader.step ⟨∅, ∅, ∅, ∅⟩

/-- Whether a bucket value satisfies the `BTreeMap::range` bounds that
`MetadataLogReader::get` derives from the operator (the `NotEqual` arm is the
`unreachable!` and derives no bounds). -/
def boundsCheck (op : PrimitiveOperator) (queryVal bucketVal : MetadataValue) : Bool :=
  match op with
  | .Equal => decide (bucketVal = queryVal)
  | .GreaterThan => mvalLt queryVal bucketVal
  | .GreaterThanOrEqual => mvalLe queryVal bucketVal
  | .LessThan => mvalLt bucketVal queryVal
  | .LessThanOrEqual => mvalLe bucketVal queryVal
  | .NotEqual => false

/-- Lookup `MetadataLogReader::get`: when the key has a bucket map, the union of the value
buckets within the operator's range bounds (with `NotEqual` hitting `unreachable!`);
when the key is absent, `Ok` with the empty bitmap. -/
def MetadataLogReader.get (r : MetadataLogReader) (key : String) (val : MetadataValue)
    (op : PrimitiveOperator) : EvalResult RoaringBitmap :=
  if ∃ t ∈ r.compact_metadata, t.1 = key then
    match op with
    | .NotEqual => .panic
    | _ =>
      .ok (((r.compact_metadata.filter
        fun t => t.1 = key ∧ boundsCheck op val t.2.1 = true)).image fun t => t.2.2)
  else
    .ok ∅

/-- Lookup `MetadataLogReader::search_user_ids`: the current offset ids of the given user
ids, skipping user ids with no (live) entry. -/
def MetadataLogReader.search_user_ids (r : MetadataLogReader) (user_ids : List String) :
    RoaringBitmap :=
  (user_ids.filterMap fun uid => r.user_id_to_offset_id.lookup uid).toFinset

/-- Modelled from the spec (§6): the contract of one on-disk per-type metadata index
reader — `get`/`gt`/`gte`/`lt`/`lte` over a key and a typed value, each returning an
unsigned id set or an index-read failure. -/
structure TypedIndexReader (κ : Type) where
  get : String → κ → Except MetadataIndexError RoaringBitmap
  gt : String → κ → Except MetadataIndexError RoaringBitmap
  gte : String → κ → Except MetadataIndexError RoaringBitmap
  lt : String → κ → Except MetadataIndexError RoaringBitmap
  lte : String → κ → Except MetadataIndexError RoaringBitmap

/-- Modelled from the spec (§6): the on-disk full-text reader contract. -/
structure FullTextIndexReader where
  search : String → Except FullTextError RoaringBitmap

/-- Modelled from the spec (§6): the segment's metadata reader bundle
(`MetadataSegmentReader`), with one optional per-type index reader per value type
(the integer index is keyed by `u32`, as the source's cast at the call site shows)
and an optional full-text reader. -/
structure MetadataSegmentReader where
  bool_metadata_index_reader : Option (TypedIndexReader Bool)
  u32_metadata_index_reader : Option (TypedIndexReader ℕ)
  f32_metadata_index_reader : Option (TypedIndexReader ℚ)
  string_metadata_index_reader : Option (TypedIndexReader String)
  full_text_index_reader : Option FullTextIndexReader

/-- Modelled from the spec (§6): the record reader contract,
`get_offset_id_for_user_id : user id → offset id or failure`. -/
structure RecordSegmentReader where
  get_offset_id_for_user_id : String → Except FetchSegmentError ℕ

/-- The two-variant metadata provider of `filter.rs` (`MetadataProvider`). -/
inductive MetadataProvider where
  | CompactData (reader : MetadataSegmentReader)
  | Log (reader : MetadataLogReader)

/-- The dispatch of `MetadataProvider::filter_by_metadata`'s compact arm once a
typed reader and key wrapper have been selected: `if let Some(reader) = ... match op`,
with the `NotEqual` arm being `unreachable!` and an absent reader yielding `Ok(∅)`. -/
def lookupTyped {κ : Type} (reader? : Option (TypedIndexReader κ)) (key : String)
    (kw : κ) (op : PrimitiveOperator) : EvalResult RoaringBitmap :=
  match reader? with
  | some reader =>
    match op with
    | .Equal => liftIndex (reader.get key kw)
    | .GreaterThan => liftIndex (reader.gt key kw)
    | .GreaterThanOrEqual => liftIndex (reader.gte key kw)
    | .LessThan => liftIndex (reader.lt key kw)
    | .LessThanOrEqual => liftIndex (reader.lte key kw)
    | .NotEqual => .panic
  | none => .ok ∅

/-- Lookup `MetadataProvider::filter_by_document`: the compact arm consults the optional
full-text reader (absence yields `Ok(∅)`), wrapping full-text failures into the
index-error taxonomy; the log arm scans the overlay's document map for substring
containment. -/
def MetadataProvider.filter_by_document (p : MetadataProvider) (query : String) :
    EvalResult RoaringBitmap :=
  match p with
  | .CompactData metadata_segment_reader =>
    match metadata_segment_reader.full_text_index_reader with
    | some reader =>
      match reader.search query with
      | .ok s => .ok s
      | .error e => .err (.index (.fullTextError e))
    | none => .ok ∅
  | .Log metadata_log_reader =>
    .ok ((metadata_log_reader.document.entries.filter
      fun s => s.2.containsSubstr query = true).map fun s => s.1).toFinset

/-- Lookup `MetadataProvider::filter_by_metadata`: the compact arm selects the per-type
reader by the value's variant — casting an `i64` query value to `u32` (two's
complement wrap, `*i as u32`) and narrowing floats — and defers to `lookupTyped`;
the log arm defers to `MetadataLogReader::get`. The `f64` → `f32` narrowing is
modelled as the identity on rationals (no claim settled here depends on rounding). -/
def MetadataProvider.filter_by_metadata (p : MetadataProvider) (key : String)
    (val : MetadataValue) (op : PrimitiveOperator) : EvalResult RoaringBitmap :=
  match p with
  | .CompactData metadata_segment_reader =>
    match val with
    | .Bool b => lookupTyped metadata_segment_reader.bool_metadata_index_reader key b op
    | .Int i =>
      lookupTyped metadata_segment_reader.u32_metadata_index_reader key
        (i % (2 ^ 32 : Int)).toNat op
    | .Float f => lookupTyped metadata_segment_reader.f32_metadata_index_reader key f op
    | .Str s => lookupTyped metadata_segment_reader.string_metadata_index_reader key s op
  | .Log metadata_log_reader => metadata_log_reader.get key val op

/-- Whether the segment reader bundle has a per-type index reader for the variant of
the given value (the selector of `filter_by_metadata`'s compact dispatch). -/
def MetadataSegmentReader.hasReaderFor (r : MetadataSegmentReader) (val : MetadataValue) :
    Bool :=
  match val with
  | .Bool _ => r.bool_metadata_index_reader.isSome
  | .Int _ => r.u32_metadata_index_reader.isSome
  | .Float _ => r.f32_metadata_index_reader.isSome
  | .Str _ => r.string_metadata_index_reader.isSome

/-- The variant-wise conversion of a `MetadataSetValue` into the list of candidate
`MetadataValue`s (`child_values` in `DirectWhereComparison::eval`). -/
def setValues : MetadataSetValue → List MetadataValue
  | .Bool l => l.map .Bool
  | .Int l => l.map .Int
  | .Float l => l.map .Float
  | .Str l => l.map .Str

/-- The sequential loop of `DirectWhereComparison::eval`'s set arm: one equality
lookup per candidate value, signed by the set operator (`In` pushes `Include`,
`NotIn` pushes `Exclude`), aborting at the first failure. -/
def evalSetChildren (p : MetadataProvider) (key : String) (sop : SetOperator) :
    List MetadataValue → EvalResult (List SignedRoaringBitmap)
  | [] => .ok []
  | v :: rest =>
    (p.filter_by_metadata key v .Equal).bind fun s =>
      (evalSetChildren p key sop rest).bind fun rs =>
        .ok ((match sop with
          | .In => SignedRoaringBitmap.Include s
          | .NotIn => SignedRoaringBitmap.Exclude s) :: rs)

/-- Evaluator `DirectWhereComparison::eval`: `NotEqual` is rewritten to `Exclude` of the
equality lookup; the five remaining primitive operators are pushed to the provider
under `Include`; set comparisons evaluate each candidate by equality and fold
(`In`: `BitOr` from `empty()`; `NotIn`: `BitAnd` from `full()`). -/
def DirectWhereComparison.eval (c : DirectWhereComparison) (p : MetadataProvider) :
    EvalResult SignedRoaringBitmap :=
  match c.comparison with
  | .Primitive primitive_operator metadata_value =>
    match primitive_operator with
    | .NotEqual =>
      (p.filter_by_metadata c.key metadata_value .Equal).map .Exclude
    | .Equal | .GreaterThan | .GreaterThanOrEqual | .LessThan | .LessThanOrEqual =>
      (p.filter_by_metadata c.key metadata_value primitive_operator).map .Include
  | .Set set_operator metadata_set_value =>
    (evalSetChildren p c.key set_operator (setValues metadata_set_value)).bind
      fun child_evaluations =>
        match set_operator with
        | .In => .ok (child_evaluations.foldl SignedRoaringBitmap.bor .empty)
        | .NotIn => .ok (child_evaluations.foldl SignedRoaringBitmap.band .full)

/-- Evaluator `DirectDocumentComparison::eval`: `Contains` yields `Include` of the document
lookup, `NotContains` yields `Exclude`. -/
def DirectDocumentComparison.eval (c : DirectDocumentComparison) (p : MetadataProvider) :
    EvalResult SignedRoaringBitmap :=
  (p.filter_by_document c.document).bind fun contain =>
    match c.operator with
    | .Contains => .ok (.Include contain)
    | .NotContains => .ok (.Exclude contain)

mutual

/-- Evaluator `Where::eval` (via the `RoaringMetadataFilter` impls): dispatch on the node kind;
a composition node evaluates its children in order and folds (`And`: `BitAnd` from
`full()`; `Or`: `BitOr` from `empty()`). -/
def Where.eval (w : Where) (p : MetadataProvider) : EvalResult SignedRoaringBitmap :=
  match w with
  | .DirectWhereComparison c => c.eval p
  | .DirectWhereDocumentComparison c => c.eval p
  | .WhereChildren operator children =>
    (evalChildren children p).bind fun child_evaluations =>
      match operator with
      | .And => .ok (child_evaluations.foldl SignedRoaringBitmap.band .full)
      | .Or => .ok (child_evaluations.foldl SignedRoaringBitmap.bor .empty)

/-- The sequential child-evaluation loop of `WhereChildren::eval`, aborting at the
first failure. -/
def evalChildren (ws : List Where) (p : MetadataProvider) :
    EvalResult (List SignedRoaringBitmap) :=
  match ws with
  | [] => .ok []
  | w :: rest =>
    (Where.eval w p).bind fun r =>
      (evalChildren rest p).bind fun rs => .ok (r :: rs)

end

/-- Operator `FilterOperator`: an optional user-id allow-list and an optional where-clause. -/
structure FilterOperator where
  query_ids : Option (List String)
  where_clause : Option Where

/-- The input of `FilterOperator::run`. The source acquires the record and metadata
segment readers from the fetched segments and materializes the log chunk through the
external materializer (spec §6); the embedding takes the three fallible outcomes as
inputs (the record reader is optional even on success). -/
structure FilterInput where
  record_segment_reader : Except FetchSegmentError (Option RecordSegmentReader)
  metadata_segment_reader : Except FetchSegmentError MetadataSegmentReader
  materialized_logs : Except LogMaterializerError (List MaterializedLogRecord)

/-- The output of `FilterOperator::run`: one signed bitmap per backend. -/
structure FilterOutput where
  log_offset_ids : SignedRoaringBitmap
  compact_offset_ids : SignedRoaringBitmap

instance : DecidableEq FilterOutput := fun a b =>
  if h1 : a.log_offset_ids = b.log_offset_ids then
    if h2 : a.compact_offset_ids = b.compact_offset_ids then
      .isTrue (by cases a; cases b; cases h1; cases h2; rfl)
    else .isFalse fun hc => h2 (congrArg FilterOutput.compact_offset_ids hc)
  else .isFalse fun hc => h1 (congrArg FilterOutput.log_offset_ids hc)

/-- Lift a fetch-time acquisition outcome (`?` with `From<FetchSegmentError>`). -/
def liftFetch {α : Type} : Except FetchSegmentError α → EvalResult α
  | .ok a => .ok a
  | .error e => .err (.fetchSegment e)

/-- Lift a log-materialization outcome (`?` with `From<LogMaterializerError>`). -/
def liftMaterializer {α : Type} : Except LogMaterializerError α → EvalResult α
  | .ok a => .ok a
  | .error e => .err (.logMaterializer e)

/-- The compact-side allow-list resolution of `FilterOperator::run`: with a record
segment reader, each allow-listed user id is looked up and inserted only when the
lookup returns `Ok` (`if let Ok(offset_id)` — failures are skipped); without a
reader, `full()`. -/
def resolveCompactAllow (reader? : Option RecordSegmentReader) (user_allowed_ids : List String) :
    SignedRoaringBitmap :=
  match reader? with
  | some reader =>
    .Include (user_allowed_ids.foldl
      (fun offset_ids user_id =>
        match reader.get_offset_id_for_user_id user_id with
        | .ok offset_id => insert offset_id offset_ids
        | .error _ => offset_ids)
      ∅)
  | none => .full

/-- Orchestration `FilterOperator::run`: acquire the record reader, materialize the logs, build the
log overlay reader, acquire the metadata segment reader, resolve the allow-list per
backend, evaluate the optional where-clause per backend, and `BitAnd` the compact
result with `Exclude` of the touched set. -/
def FilterOperator.run (o : FilterOperator) (input : FilterInput) : EvalResult FilterOutput :=
  (liftFetch input.record_segment_reader).bind fun record_segment_reader =>
  (liftMaterializer input.materialized_logs).bind fun materialized_logs =>
  let metadata_log_reader := MetadataLogReader.new materialized_logs
  let log_metadata_provider := MetadataProvider.Log metadata_log_reader
  (liftFetch input.metadata_segment_reader).bind fun metadata_segement_reader =>
  let compact_metadata_provider := MetadataProvider.CompactData metadata_segement_reader
  let allowed : SignedRoaringBitmap × SignedRoaringBitmap :=
    match o.query_ids with
    | some user_allowed_ids =>
      (.Include (metadata_log_reader.search_user_ids user_allowed_ids),
        resolveCompactAllow record_segment_reader user_allowed_ids)
    | none => (.full, .full)
  (match o.where_clause with
    | some clause =>
      (clause.eval log_metadata_provider).bind fun r =>
        .ok (r.band allowed.1)
    | none => .ok allowed.1).bind fun log_offset_ids =>
  (match o.where_clause with
    | some clause =>
      (clause.eval compact_metadata_provider).bind fun r =>
        .ok ((r.band allowed.2).band (.Exclude metadata_log_reader.updated_offset_ids))
    | none =>
      .ok (allowed.2.band (.Exclude metadata_log_reader.updated_offset_ids))).bind
    fun compact_offset_ids =>
  .ok ⟨log_offset_ids, compact_offset_ids⟩

/-! ### Spec-side characterizations and fixtures -/

/-- The touched set as the reconciliation claim words it: the offset ids of the
materialized log records whose final operation is neither `Initial` nor `AddNew`. -/
def specTouchedSet (logs : List MaterializedLogRecord) : Finset ℕ :=
  ((logs.filter fun l =>
    !(decide (l.final_operation = .Initial) || decide (l.final_operation = .AddNew))).map
      fun l => l.offset_id).toFinset

/-- The sequence of raw equality lookups that a set comparison performs, one per
candidate value in list order (statement helper for the set-membership law). -/
def equalityLookups (p : MetadataProvider) (key : String) :
    List MetadataValue → EvalResult (List RoaringBitmap)
  | [] => .ok []
  | v :: rest =>
    (p.filter_by_metadata key v .Equal).bind fun s =>
      (equalityLookups p key rest).bind fun ss => .ok (s :: ss)

mutual

/-- The operator arguments of the `filter_by_metadata` calls that evaluating a
where-clause node issues, read off the call sites of the evaluator: the `NotEqual`
arm calls with `Equal`; the remaining primitive arm calls with its own operator; the
set arm calls with `Equal` once per candidate value; document nodes issue none; a
composition node issues its children's calls. -/
def Where.providerOps : Where → List PrimitiveOperator
  | .DirectWhereComparison c =>
    match c.comparison with
    | .Primitive op _ =>
      match op with
      | .NotEqual => [.Equal]
      | _ => [op]
    | .Set _ msv => (setValues msv).map fun _ => .Equal
  | .DirectWhereDocumentComparison _ => []
  | .WhereChildren _ children => providerOpsList children

/-- Concatenation of `providerOps` over a child list. -/
def providerOpsList : List Where → List PrimitiveOperator
  | [] => []
  | w :: rest => w.providerOps ++ providerOpsList rest

end

/-- Modelled from the spec (§6): a per-type on-disk index reader backed by a finite
set of (key, value, offset-id) buckets, answering each lookup by the ordering
relation on the typed value. Used to instantiate the abstract reader contract in
witnesses and counterexamples. -/
def bucketIndexReader {κ : Type} [LinearOrder κ]
    (buckets : Finset (String × κ × ℕ)) : TypedIndexReader κ where
  get key k := .ok ((buckets.filter fun t => t.1 = key ∧ t.2.1 = k).image fun t => t.2.2)
  gt key k := .ok ((buckets.filter fun t => t.1 = key ∧ k < t.2.1).image fun t => t.2.2)
  gte key k := .ok ((buckets.filter fun t => t.1 = key ∧ k ≤ t.2.1).image fun t => t.2.2)
  lt key k := .ok ((buckets.filter fun t => t.1 = key ∧ t.2.1 < k).image fun t => t.2.2)
  lte key k := .ok ((buckets.filter fun t => t.1 = key ∧ t.2.1 ≤ k).image fun t => t.2.2)

/-- A segment reader bundle with no index readers at all. -/
def emptySegmentReader : MetadataSegmentReader := ⟨none, none, none, none, none⟩

/-- Fixture: a two-record materialized log chunk with integer metadata. -/
def fixtureLogs : List MaterializedLogRecord :=
  [⟨1, .AddNew, "u1", [("k", .Int 1)], none⟩,
   ⟨2, .UpdateExisting, "u2", [("k", .Int 2)], none⟩]

/-- Fixture: the log overlay reader over `fixtureLogs`. -/
def fixtureLogReader : MetadataLogReader := MetadataLogReader.new fixtureLogs

/-- Fixture: the log-backed provider over `fixtureLogReader`. -/
def fixtureLogProvider : MetadataProvider := .Log fixtureLogReader

/-! ### Claim theorems -/

/-- C6: the signed-bitmap algebra satisfies `a AND b = b AND a`, `a OR b = b OR a`,
`a AND full() = a` and `a OR empty() = a`, where AND/OR follow the four-case table
of §4.1 and equality is structural equality of kind and underlying set. -/
theorem signedBitmap_comm_and_identities (a b : SignedRoaringBitmap) :
    a.band b = b.band a ∧ a.bor b = b.bor a ∧
    a.band SignedRoaringBitmap.full = a ∧ a.bor SignedRoaringBitmap.empty = a := by
  obtain ⟨A⟩ | ⟨A⟩ := a <;> obtain ⟨B⟩ | ⟨B⟩ := b <;>
    refine ⟨?_, ?_, ?_, ?_⟩ <;>
      simp [SignedRoaringBitmap.band, SignedRoaringBitmap.bor, SignedRoaringBitmap.empty,
        SignedRoaringBitmap.full, Finset.inter_comm, Finset.union_comm]

/-- C2: evaluating the direct comparison `K != V` yields exactly `Exclude` of the
provider's equality lookup `filter_by_metadata(K, V, =)`; the call site passes
`Equal`, so `!=` itself is never handed to the provider by this node. -/
theorem notEqual_eval_is_exclude_of_equal (key : String) (val : MetadataValue)
    (p : MetadataProvider) :
    Where.eval (.DirectWhereComparison ⟨key, .Primitive .NotEqual val⟩) p =
      (p.filter_by_metadata key val .Equal).map SignedRoaringBitmap.Exclude := by
  rfl

/-- C5: a composition node evaluates to the fold of its children's evaluations —
`And` folds with `band` from `full()`, `Or` folds with `bor` from `empty()` — and a
node with zero children evaluates to `full()` for `And` and `empty()` for `Or`. -/
theorem whereChildren_fold_laws (children : List Where) (p : MetadataProvider)
    (rs : List SignedRoaringBitmap) (h : evalChildren children p = .ok rs) :
    Where.eval (.WhereChildren .And children) p =
      .ok (rs.foldl SignedRoaringBitmap.band SignedRoaringBitmap.full) ∧
    Where.eval (.WhereChildren .Or children) p =
      .ok (rs.foldl SignedRoaringBitmap.bor SignedRoaringBitmap.empty) ∧
    Where.eval (.WhereChildren .And []) p = .ok SignedRoaringBitmap.full ∧
    Where.eval (.WhereChildren .Or []) p = .ok SignedRoaringBitmap.empty := by
  refine ⟨?_, ?_, rfl, rfl⟩ <;> rw [Where.eval, h] <;> rfl

/-- Witness for C5 at a concrete child list over the log-backed fixture provider. -/
theorem whereChildren_fold_laws_witness :
    Where.eval (.WhereChildren .And
        [.DirectWhereComparison ⟨"k", .Primitive .Equal (.Int 1)⟩]) fixtureLogProvider =
      .ok ([SignedRoaringBitmap.Include {1}].foldl SignedRoaringBitmap.band
        SignedRoaringBitmap.full) :=
  (whereChildren_fold_laws
    [.DirectWhereComparison ⟨"k", .Primitive .Equal (.Int 1)⟩] fixtureLogProvider
    [SignedRoaringBitmap.Include {1}] (by decide)).1

/-- The set-comparison loop performs exactly the equality lookups, signing each
result by the set operator. -/
theorem evalSetChildren_eq (p : MetadataProvider) (key : String) (sop : SetOperator)
    (vals : List MetadataValue) :
    evalSetChildren p key sop vals = (equalityLookups p key vals).map
      (List.map fun s => match sop with
        | .In => SignedRoaringBitmap.Include s
        | .NotIn => SignedRoaringBitmap.Exclude s) := by
  induction vals with
  | nil => rfl
  | cons v rest ih =>
    rw [evalSetChildren, equalityLookups, ih]
    cases p.filter_by_metadata key v PrimitiveOperator.Equal <;>
      cases equalityLookups p key rest <;>
      simp [EvalResult.bind, EvalResult.map]

/-- C4: `K In [v1,...,vn]` evaluates to the OR-fold, from `empty()`, of `Include` of
the equality lookups in list order, and `K NotIn [v1,...,vn]` to the AND-fold, from
`full()`, of `Exclude` of the same lookups; with an empty value list the folds are
the identities `empty()` and `full()`. -/
theorem set_membership_fold_laws (key : String) (msv : MetadataSetValue)
    (p : MetadataProvider) (ss : List RoaringBitmap)
    (h : equalityLookups p key (setValues msv) = .ok ss) :
    Where.eval (.DirectWhereComparison ⟨key, .Set .In msv⟩) p =
      .ok ((ss.map SignedRoaringBitmap.Include).foldl SignedRoaringBitmap.bor
        SignedRoaringBitmap.empty) ∧
    Where.eval (.DirectWhereComparison ⟨key, .Set .NotIn msv⟩) p =
      .ok ((ss.map SignedRoaringBitmap.Exclude).foldl SignedRoaringBitmap.band
        SignedRoaringBitmap.full) := by
  constructor
  · have e1 : Where.eval (.DirectWhereComparison ⟨key, .Set .In msv⟩) p =
        (evalSetChildren p key .In (setValues msv)).bind fun ce =>
          .ok (ce.foldl SignedRoaringBitmap.bor SignedRoaringBitmap.empty) := rfl
    rw [e1, evalSetChildren_eq, h]
    rfl
  · have e2 : Where.eval (.DirectWhereComparison ⟨key, .Set .NotIn msv⟩) p =
        (evalSetChildren p key .NotIn (setValues msv)).bind fun ce =>
          .ok (ce.foldl SignedRoaringBitmap.band SignedRoaringBitmap.full) := rfl
    rw [e2, evalSetChildren_eq, h]
    rfl

/-- Witness for C4 at a concrete two-value integer list over the fixture provider. -/
theorem set_membership_fold_laws_witness :
    Where.eval (.DirectWhereComparison ⟨"k", .Set .In (.Int [1, 2])⟩) fixtureLogProvider =
      .ok ((([{1}, {2}] : List RoaringBitmap).map SignedRoaringBitmap.Include).foldl
        SignedRoaringBitmap.bor SignedRoaringBitmap.empty) :=
  (set_membership_fold_laws "k" (.Int [1, 2]) fixtureLogProvider [{1}, {2}] (by decide)).1

/-- C7: a lookup under a key absent from the log overlay's metadata map returns
`Ok` with the empty set (for every operator), and a metadata lookup against the
on-disk provider whose per-type index reader for the value's variant is absent
returns `Ok` with the empty set. -/
theorem absence_yields_empty_not_error
    (r : MetadataLogReader) (key : String) (val : MetadataValue) (op : PrimitiveOperator)
    (hkey : ∀ t ∈ r.compact_metadata, t.1 ≠ key)
    (sr : MetadataSegmentReader) (key2 : String) (val2 : MetadataValue)
    (op2 : PrimitiveOperator) (hreader : sr.hasReaderFor val2 = false) :
    r.get key val op = .ok ∅ ∧
    MetadataProvider.filter_by_metadata (.CompactData sr) key2 val2 op2 = .ok ∅ := by
  constructor
  · have hcond : ¬ ∃ t ∈ r.compact_metadata, t.1 = key := by
      rintro ⟨t, ht, he⟩
      exact hkey t ht he
    cases op <;> simp [MetadataLogReader.get, hcond]
  · cases val2 with
    | Bool b =>
      cases h : sr.bool_metadata_index_reader <;>
        simp_all [MetadataSegmentReader.hasReaderFor, MetadataProvider.filter_by_metadata,
          lookupTyped]
    | Int i =>
      cases h : sr.u32_metadata_index_reader <;>
        simp_all [MetadataSegmentReader.hasReaderFor, MetadataProvider.filter_by_metadata,
          lookupTyped]
    | Float f =>
      cases h : sr.f32_metadata_index_reader <;>
        simp_all [MetadataSegmentReader.hasReaderFor, MetadataProvider.filter_by_metadata,
          lookupTyped]
    | Str s =>
      cases h : sr.string_metadata_index_reader <;>
        simp_all [MetadataSegmentReader.hasReaderFor, MetadataProvider.filter_by_metadata,
          lookupTyped]

/-- Witness for C7: an absent key on the fixture log reader and an integer lookup on
a segment bundle with no readers. -/
theorem absence_yields_empty_not_error_witness :
    fixtureLogReader.get "z" (.Int 1) .NotEqual = .ok ∅ ∧
    MetadataProvider.filter_by_metadata (.CompactData emptySegmentReader) "k" (.Int 1)
      .Equal = .ok ∅ :=
  absence_yields_empty_not_error fixtureLogReader "z" (.Int 1) .NotEqual (by decide)
    emptySegmentReader "k" (.Int 1) .Equal (by decide)

/-- The allow-list insertion loop collects exactly the successful lookups. -/
theorem foldl_insert_ok (r : RecordSegmentReader) (ids : List String) (s : Finset ℕ) :
    ids.foldl (fun offset_ids user_id =>
      match r.get_offset_id_for_user_id user_id with
      | .ok offset_id => insert offset_id offset_ids
      | .error _ => offset_ids) s =
    s ∪ (ids.filterMap fun uid => (r.get_offset_id_for_user_id uid).toOption).toFinset := by
  induction ids generalizing s with
  | nil => simp
  | cons uid rest ih =>
    rw [List.foldl_cons, ih]
    cases h : r.get_offset_id_for_user_id uid <;>
      simp [h, Except.toOption, List.filterMap_cons, Finset.insert_union, Finset.union_insert]

/-- C10: during allow-list resolution, a failed on-disk offset-id lookup is skipped
(the result is total — no error is returned — and holds exactly the ids whose lookup
succeeded), and with no record segment reader the disk-scoped allow set is `full()`. -/
theorem allow_list_resolution (r : RecordSegmentReader) (ids : List String) :
    resolveCompactAllow (some r) ids =
      .Include ((ids.filterMap fun uid =>
        (r.get_offset_id_for_user_id uid).toOption).toFinset) ∧
    resolveCompactAllow none ids = SignedRoaringBitmap.full := by
  refine ⟨?_, rfl⟩
  rw [resolveCompactAllow, foldl_insert_ok]
  simp

/-- A successful result is not a panic. -/
theorem EvalResult.ok_ne_panic {α : Type} {a : α} : (EvalResult.ok a) ≠ .panic :=
  fun h => EvalResult.noConfusion h

/-- An error result is not a panic. -/
theorem EvalResult.err_ne_panic {α : Type} {e : FilterError} :
    (EvalResult.err e : EvalResult α) ≠ .panic :=
  fun h => EvalResult.noConfusion h

/-- Sequencing panic-free computations is panic-free. -/
theorem EvalResult.bind_ne_panic {α β : Type} {a : EvalResult α} {f : α → EvalResult β}
    (ha : a ≠ .panic) (hf : ∀ x, f x ≠ .panic) : a.bind f ≠ .panic := by
  cases a with
  | ok x => exact hf x
  | err e => exact EvalResult.err_ne_panic
  | panic => exact absurd rfl ha

/-- Mapping a panic-free computation is panic-free. -/
theorem EvalResult.map_ne_panic {α β : Type} {f : α → β} {a : EvalResult α}
    (ha : a ≠ .panic) : a.map f ≠ .panic := by
  cases a with
  | ok x => exact EvalResult.ok_ne_panic
  | err e => exact EvalResult.err_ne_panic
  | panic => exact absurd rfl ha

/-- Lifting an index lookup never panics. -/
theorem liftIndex_ne_panic {α : Type} (e : Except MetadataIndexError α) :
    liftIndex e ≠ .panic := by
  cases e with
  | ok a => exact EvalResult.ok_ne_panic
  | error e => exact EvalResult.err_ne_panic

/-- The log reader's raw lookup panics only on `NotEqual`. -/
theorem get_ne_panic (r : MetadataLogReader) (key : String) (val : MetadataValue)
    (op : PrimitiveOperator) (hop : op ≠ .NotEqual) : r.get key val op ≠ .panic := by
  cases op
  case NotEqual => exact absurd rfl hop
  all_goals
    simp only [MetadataLogReader.get]
  all_goals
    split <;> exact EvalResult.ok_ne_panic

/-- The typed-reader dispatch panics only on `NotEqual`. -/
theorem lookupTyped_ne_panic {κ : Type} (reader? : Option (TypedIndexReader κ))
    (key : String) (kw : κ) (op : PrimitiveOperator) (hop : op ≠ .NotEqual) :
    lookupTyped reader? key kw op ≠ .panic := by
  cases reader? with
  | none => exact EvalResult.ok_ne_panic
  | some reader =>
    cases op
    case NotEqual => exact absurd rfl hop
    all_goals exact liftIndex_ne_panic _

/-- The provider's raw metadata lookup panics only on `NotEqual`. -/
theorem filter_by_metadata_ne_panic (p : MetadataProvider) (key : String)
    (val : MetadataValue) (op : PrimitiveOperator) (hop : op ≠ .NotEqual) :
    p.filter_by_metadata key val op ≠ .panic := by
  cases p with
  | Log r => exact get_ne_panic r key val op hop
  | CompactData sr => cases val <;> exact lookupTyped_ne_panic _ _ _ _ hop

/-- The provider's document lookup never panics. -/
theorem filter_by_document_ne_panic (p : MetadataProvider) (query : String) :
    p.filter_by_document query ≠ .panic := by
  cases p with
  | Log r => exact EvalResult.ok_ne_panic
  | CompactData sr =>
    simp only [MetadataProvider.filter_by_document]
    cases sr.full_text_index_reader with
    | none => exact EvalResult.ok_ne_panic
    | some ft =>
      show (match ft.search query with
        | Except.ok s => EvalResult.ok s
        | Except.error e =>
          EvalResult.err (.index (.fullTextError e))) ≠ EvalResult.panic
      cases ft.search query with
      | ok s => exact EvalResult.ok_ne_panic
      | error e => exact EvalResult.err_ne_panic

/-- The set-comparison loop never panics: every lookup it issues uses `Equal`. -/
theorem evalSetChildren_ne_panic (p : MetadataProvider) (key : String)
    (sop : SetOperator) (vals : List MetadataValue) :
    evalSetChildren p key sop vals ≠ .panic := by
  induction vals with
  | nil => exact EvalResult.ok_ne_panic
  | cons v rest ih =>
    exact EvalResult.bind_ne_panic
      (filter_by_metadata_ne_panic p key v .Equal (fun h => PrimitiveOperator.noConfusion h))
      fun s => EvalResult.bind_ne_panic ih fun rs => EvalResult.ok_ne_panic

/-- Evaluating a direct metadata comparison never panics. -/
theorem directWhereComparison_eval_ne_panic (c : DirectWhereComparison)
    (p : MetadataProvider) : c.eval p ≠ .panic := by
  obtain ⟨key, cmp⟩ := c
  cases cmp with
  | Primitive pop v =>
    cases pop <;>
      exact EvalResult.map_ne_panic
        (filter_by_metadata_ne_panic p key v _ (fun h => PrimitiveOperator.noConfusion h))
  | Set sop msv =>
    cases sop <;>
      exact EvalResult.bind_ne_panic (evalSetChildren_ne_panic p key _ (setValues msv))
        fun ce => EvalResult.ok_ne_panic

/-- Evaluating a document comparison never panics. -/
theorem directDocumentComparison_eval_ne_panic (c : DirectDocumentComparison)
    (p : MetadataProvider) : c.eval p ≠ .panic := by
  obtain ⟨doc, dop⟩ := c
  cases dop <;>
    exact EvalResult.bind_ne_panic (filter_by_document_ne_panic p doc)
      fun s => EvalResult.ok_ne_panic

mutual

/-- Predicate-tree evaluation never reaches a panic. -/
theorem Where.eval_ne_panic (w : Where) (p : MetadataProvider) : w.eval p ≠ .panic := by
  cases w with
  | DirectWhereComparison c => exact directWhereComparison_eval_ne_panic c p
  | DirectWhereDocumentComparison c => exact directDocumentComparison_eval_ne_panic c p
  | WhereChildren operator children =>
    cases operator <;>
      exact EvalResult.bind_ne_panic (evalChildren_ne_panic children p)
        fun ce => EvalResult.ok_ne_panic

/-- The child-evaluation loop never reaches a panic. -/
theorem evalChildren_ne_panic (ws : List Where) (p : MetadataProvider) :
    evalChildren ws p ≠ .panic := by
  cases ws with
  | nil => exact EvalResult.ok_ne_panic
  | cons w rest =>
    exact EvalResult.bind_ne_panic (Where.eval_ne_panic w p)
      fun r => EvalResult.bind_ne_panic (evalChildren_ne_panic rest p)
        fun rs => EvalResult.ok_ne_panic

end

mutual

/-- Every operator a node's evaluation passes to the provider differs from
`NotEqual`. -/
theorem Where.providerOps_ne_notEqual (w : Where) :
    ∀ op ∈ w.providerOps, op ≠ PrimitiveOperator.NotEqual := by
  cases w with
  | DirectWhereComparison c =>
    obtain ⟨key, cmp⟩ := c
    cases cmp with
    | Primitive pop v =>
      cases pop <;> · intro op hop
                      simp only [Where.providerOps, List.mem_singleton] at hop
                      subst hop
                      simp
    | Set sop msv =>
      intro op hop
      simp only [Where.providerOps, List.mem_map] at hop
      obtain ⟨x, _, hx⟩ := hop
      subst hx
      simp
  | DirectWhereDocumentComparison c => simp [Where.providerOps]
  | WhereChildren operator children => exact providerOpsList_ne_notEqual children

/-- Every operator in a child list's lookup trace differs from `NotEqual`. -/
theorem providerOpsList_ne_notEqual (ws : List Where) :
    ∀ op ∈ providerOpsList ws, op ≠ PrimitiveOperator.NotEqual := by
  cases ws with
  | nil => simp [providerOpsList]
  | cons w rest =>
    intro op hop
    rw [providerOpsList, List.mem_append] at hop
    cases hop with
    | inl h => exact Where.providerOps_ne_notEqual w op h
    | inr h => exact providerOpsList_ne_notEqual rest op h

end

/-- C3: predicate-tree evaluation never executes the `unreachable!` arm of either
provider lookup (the result is never a panic), and every operator argument at a
`filter_by_metadata` call site of the evaluator differs from `NotEqual` (so it lies
in the five-operator set the providers handle). -/
theorem provider_never_sees_notEqual (w : Where) (p : MetadataProvider) :
    Where.eval w p ≠ EvalResult.panic ∧
    ∀ op ∈ w.providerOps, op ≠ PrimitiveOperator.NotEqual :=
  ⟨Where.eval_ne_panic w p, Where.providerOps_ne_notEqual w⟩

/-- Witness for C3 at a concrete inequality node over the fixture provider. -/
theorem provider_never_sees_notEqual_witness :
    Where.eval (.DirectWhereComparison ⟨"k", .Primitive .NotEqual (.Int 1)⟩)
      fixtureLogProvider ≠ EvalResult.panic ∧
    PrimitiveOperator.Equal ≠ PrimitiveOperator.NotEqual :=
  ⟨(provider_never_sees_notEqual
      (.DirectWhereComparison ⟨"k", .Primitive .NotEqual (.Int 1)⟩) fixtureLogProvider).1,
   (provider_never_sees_notEqual
      (.DirectWhereComparison ⟨"k", .Primitive .NotEqual (.Int 1)⟩) fixtureLogProvider).2
      .Equal (by decide)⟩

/-- Inversion of a successful bind. -/
theorem EvalResult.bind_eq_ok {α β : Type} {a : EvalResult α} {f : α → EvalResult β}
    {b : β} (h : a.bind f = .ok b) : ∃ x, a = .ok x ∧ f x = .ok b := by
  cases a with
  | ok x => exact ⟨x, rfl, h⟩
  | err e => exact absurd h (fun hc => EvalResult.noConfusion hc)
  | panic => exact absurd h (fun hc => EvalResult.noConfusion hc)

/-- Anything `BitAnd`-ed with `Exclude s` denotes no element of `s`. -/
theorem mem_band_exclude (a : SignedRoaringBitmap) (s : Finset ℕ) (i : ℕ) (hi : i ∈ s) :
    (a.band (.Exclude s)).mem i = false := by
  cases a <;> simp [SignedRoaringBitmap.band, SignedRoaringBitmap.mem, hi]

/-- The touched set accumulated by the construction step. -/
theorem step_updated_offset_ids (r : MetadataLogReader) (l : MaterializedLogRecord) :
    (MetadataLogReader.step r l).updated_offset_ids =
      if l.final_operation = .Initial ∨ l.final_operation = .AddNew
      then r.updated_offset_ids else insert l.offset_id r.updated_offset_ids := by
  simp only [MetadataLogReader.step]
  split <;> split <;> rfl

/-- Folding the construction step accumulates exactly the touched ids of the chunk. -/
theorem foldl_step_updated (logs : List MaterializedLogRecord) (r : MetadataLogReader) :
    (logs.foldl MetadataLogReader.step r).updated_offset_ids =
      r.updated_offset_ids ∪ specTouchedSet logs := by
  induction logs generalizing r with
  | nil => simp [specTouchedSet]
  | cons l rest ih =>
    rw [List.foldl_cons, ih, step_updated_offset_ids]
    by_cases hc : l.final_operation = .Initial ∨ l.final_operation = .AddNew
    · rw [if_pos hc]
      have : specTouchedSet (l :: rest) = specTouchedSet rest := by
        simp [specTouchedSet, List.filter_cons, hc]
        rcases hc with hc | hc <;> simp [hc]
      rw [this]
    · rw [if_neg hc]
      have h1 : decide (l.final_operation = .Initial) = false := by
        simp [decide_eq_false_iff_not]
        intro h
        exact hc (Or.inl h)
      have h2 : decide (l.final_operation = .AddNew) = false := by
        simp [decide_eq_false_iff_not]
        intro h
        exact hc (Or.inr h)
      have : specTouchedSet (l :: rest) = insert l.offset_id (specTouchedSet rest) := by
        simp [specTouchedSet, List.filter_cons, h1, h2]
      rw [this, Finset.insert_union, Finset.union_insert]

/-- The reader's `updated_offset_ids` is exactly the touched set as the claim words
it: the offset ids of records whose final operation is neither `Initial` nor
`AddNew`. -/
theorem updated_offset_ids_eq_specTouchedSet (logs : List MaterializedLogRecord) :
    (MetadataLogReader.new logs).updated_offset_ids = specTouchedSet logs := by
  rw [MetadataLogReader.new, foldl_step_updated]
  exact Finset.empty_union _

/-- C1: for every filter invocation that succeeds — any combination of optional
where-clause and optional allow-list — the disk-scoped signed bitmap denotes no
offset id in the log's touched set, the touched set being exactly the offset ids of
the materialized records whose final operation is neither `Initial` nor `AddNew`. -/
theorem disk_scoped_excludes_touched (o : FilterOperator) (input : FilterInput)
    (logs : List MaterializedLogRecord) (out : FilterOutput) (i : ℕ)
    (hlogs : input.materialized_logs = .ok logs)
    (hrun : o.run input = .ok out)
    (hi : i ∈ specTouchedSet logs) :
    out.compact_offset_ids.mem i = false := by
  rw [FilterOperator.run] at hrun
  obtain ⟨rsr, _, hrun⟩ := EvalResult.bind_eq_ok hrun
  rw [hlogs] at hrun
  obtain ⟨logs2, hl2, hrun⟩ := EvalResult.bind_eq_ok hrun
  have hll : logs2 = logs := (EvalResult.ok.inj hl2).symm
  rw [hll] at hrun
  obtain ⟨msr, _, hrun⟩ := EvalResult.bind_eq_ok hrun
  obtain ⟨lids, _, hrun⟩ := EvalResult.bind_eq_ok hrun
  obtain ⟨cids, hB, hrun⟩ := EvalResult.bind_eq_ok hrun
  have hout : out = ⟨lids, cids⟩ := (EvalResult.ok.inj hrun).symm
  subst hout
  have hmem : i ∈ (MetadataLogReader.new logs).updated_offset_ids := by
    rw [updated_offset_ids_eq_specTouchedSet]
    exact hi
  cases hw : o.where_clause with
  | none =>
    rw [hw] at hB
    rw [← EvalResult.ok.inj hB]
    exact mem_band_exclude _ _ i hmem
  | some clause =>
    rw [hw] at hB
    obtain ⟨r, _, hB⟩ := EvalResult.bind_eq_ok hB
    rw [← EvalResult.ok.inj hB]
    exact mem_band_exclude _ _ i hmem

/-- Fixture: a filter input whose log chunk holds one updated record at offset 5. -/
def c1Input : FilterInput :=
  ⟨.ok none, .ok emptySegmentReader, .ok [⟨5, .UpdateExisting, "a", [], none⟩]⟩

/-- Witness for C1: the trivial invocation over `c1Input` succeeds with disk-scoped
result `Exclude {5}`, which indeed omits the touched offset 5. -/
theorem disk_scoped_excludes_touched_witness :
    (SignedRoaringBitmap.Exclude {5}).mem 5 = false :=
  disk_scoped_excludes_touched ⟨none, none⟩ c1Input
    [⟨5, .UpdateExisting, "a", [], none⟩] ⟨.full, .Exclude {5}⟩ 5 rfl (by decide) (by decide)

/-- Fixture for C8: a log record at offset 7 whose `count` is the integer 5. -/
def c8Record : MaterializedLogRecord := ⟨7, .Initial, "u", [("count", .Int 5)], none⟩

/-- Fixture for C8: the log overlay reader holding `c8Record`. -/
def c8LogReader : MetadataLogReader := MetadataLogReader.new [c8Record]

/-- Fixture for C8: a segment bundle whose `u32` integer index holds the bucket
`("count", 5) ↦ {7}` — the on-disk image of `c8Record`'s metadata. -/
def c8SegmentReader : MetadataSegmentReader :=
  ⟨none, some (bucketIndexReader {("count", 5, 7)}), none, none, none⟩

/-- C8 divergence: on the same logical data (offset 7 with `count = 5`), the query
`count > -1` returns `{7}` from the log provider (signed integer order: `-1 < 5`)
but `∅` from the disk provider, because the evaluator casts the `i64` query value
`-1` to `u32` (two's complement wrap to `4294967295`) before consulting the `u32`
index, and no stored bucket exceeds that wrapped key. -/
theorem int_query_u32_cast_divergence :
    MetadataProvider.filter_by_metadata (.Log c8LogReader) "count" (.Int (-1))
      .GreaterThan = .ok {7} ∧
    MetadataProvider.filter_by_metadata (.CompactData c8SegmentReader) "count"
      (.Int (-1)) .GreaterThan = .ok ∅ ∧
    ((-1 : Int) % (2 ^ 32 : Int)).toNat = 4294967295 :=
  ⟨by decide, by decide, by decide⟩

/-- Fixture for C9: offset 5, user id "a", document "x". -/
def c9r1 : MaterializedLogRecord := ⟨5, .UpdateExisting, "a", [], some "x"⟩

/-- Fixture for C9: offset 5 again, but user id "b" and document "y". -/
def c9r2 : MaterializedLogRecord := ⟨5, .UpdateExisting, "b", [], some "y"⟩

/-- C9 counterexample: with distinct user ids but a shared offset id, the two
orders of the same two-record chunk build different readers (the later record's
document overwrites the earlier one's under the shared offset key), so
`MetadataLogReader::new` is not order-independent under the claim's hypothesis of
distinct user ids alone. -/
theorem new_order_dependent_with_duplicate_offsets :
    ([c9r1, c9r2].map MaterializedLogRecord.merged_user_id).Nodup ∧
    List.Perm [c9r1, c9r2] [c9r2, c9r1] ∧
    MetadataLogReader.new [c9r1, c9r2] ≠ MetadataLogReader.new [c9r2, c9r1] :=
  ⟨by decide, List.Perm.swap c9r2 c9r1 [], by decide⟩

/-- The user-id map written by the construction step. -/
theorem step_user_id (r : MetadataLogReader) (l : MaterializedLogRecord) :
    (MetadataLogReader.step r l).user_id_to_offset_id =
      if l.final_operation = .DeleteExisting then r.user_id_to_offset_id
      else r.user_id_to_offset_id.insert l.merged_user_id l.offset_id := by
  simp only [MetadataLogReader.step]
  split <;> split <;> rfl

/-- The metadata triple set written by the construction step. -/
theorem step_compact_metadata (r : MetadataLogReader) (l : MaterializedLogRecord) :
    (MetadataLogReader.step r l).compact_metadata =
      if l.final_operation = .DeleteExisting then r.compact_metadata
      else insertMetadata r.compact_metadata l.offset_id l.merged_metadata := by
  simp only [MetadataLogReader.step]
  split <;> split <;> rfl

/-- The document map written by the construction step. -/
theorem step_document (r : MetadataLogReader) (l : MaterializedLogRecord) :
    (MetadataLogReader.step r l).document =
      if l.final_operation = .DeleteExisting then r.document
      else match l.merged_document with
        | some doc => r.document.insert l.offset_id doc
        | none => r.document := by
  simp only [MetadataLogReader.step]
  split <;> split <;> rfl

/-- The metadata insertion loop adds exactly the record's triples. -/
theorem insertMetadata_eq (acc : Finset (String × MetadataValue × ℕ)) (oid : ℕ)
    (kvs : List (String × MetadataValue)) :
    insertMetadata acc oid kvs = acc ∪ (kvs.map fun kv => (kv.1, kv.2, oid)).toFinset := by
  induction kvs generalizing acc with
  | nil => simp [insertMetadata]
  | cons kv rest ih =>
    show insertMetadata (insert (kv.1, kv.2, oid) acc) oid rest = _
    rw [ih, List.map_cons, List.toFinset_cons, Finset.insert_union, Finset.union_insert]

/-- Construction steps for two records with distinct user ids and distinct offset
ids commute (they also trivially commute for one and the same record). -/
theorem step_comm (x y : MaterializedLogRecord)
    (hxy : x = y ∨ (x.merged_user_id ≠ y.merged_user_id ∧ x.offset_id ≠ y.offset_id))
    (r : MetadataLogReader) :
    MetadataLogReader.step (MetadataLogReader.step r x) y =
      MetadataLogReader.step (MetadataLogReader.step r y) x := by
  rcases hxy with rfl | ⟨hu, ho⟩
  · rfl
  · ext1
    · simp only [step_compact_metadata]
      split_ifs <;> try rfl
      simp only [insertMetadata_eq]
      rw [Finset.union_right_comm]
    · simp only [step_document]
      split_ifs <;> try rfl
      cases x.merged_document <;> cases y.merged_document <;> try rfl
      exact Finmap.insert_insert_of_ne _ ho
    · simp only [step_updated_offset_ids]
      split_ifs <;> try rfl
      exact Finset.Insert.comm _ _ _
    · simp only [step_user_id]
      split_ifs <;> try rfl
      exact Finmap.insert_insert_of_ne _ hu

/-- C9 amended: `MetadataLogReader::new` is order-independent for chunks whose user
ids are distinct and whose offset ids are distinct (one logical record per user id
and per offset id): any permutation builds the same reader. -/
theorem new_order_independent (l1 l2 : List MaterializedLogRecord)
    (hperm : l1.Perm l2)
    (huid : (l1.map MaterializedLogRecord.merged_user_id).Nodup)
    (hoid : (l1.map MaterializedLogRecord.offset_id).Nodup) :
    MetadataLogReader.new l1 = MetadataLogReader.new l2 := by
  rw [MetadataLogReader.new, MetadataLogReader.new]
  refine hperm.foldl_eq' ?_ _
  intro x hx y hy r
  by_cases hxy : x = y
  · subst hxy
    rfl
  · have hu : x.merged_user_id ≠ y.merged_user_id := fun h =>
      hxy (List.inj_on_of_nodup_map huid hx hy h)
    have ho : x.offset_id ≠ y.offset_id := fun h =>
      hxy (List.inj_on_of_nodup_map hoid hx hy h)
    exact step_comm x y (Or.inr ⟨hu, ho⟩) r

/-- Fixture for the C9 witness: offset 6, user id "b", document "y". -/
def c9w2 : MaterializedLogRecord := ⟨6, .UpdateExisting, "b", [], some "y"⟩

/-- Witness for the amended C9 at a concrete two-record chunk with distinct user
ids and distinct offset ids. -/
theorem new_order_independent_witness :
    MetadataLogReader.new [c9r1, c9w2] = MetadataLogReader.new [c9w2, c9r1] :=
  new_order_independent [c9r1, c9w2] [c9w2, c9r1]
    (List.Perm.swap c9w2 c9r1 []) (by decide) (by decide)

end Chroma
